import Mathlib

/-!
Shallow embedding of the SimpleRNG Rust library (src/lib.rs).

u64 values are represented as natural numbers; every operation that the Rust
code performs with wraparound semantics is reduced modulo 2^64 explicitly.
A Rust panic is modelled as `none` of an `Option` result.  The embedding
models the crate's default configuration: the `pcg` variant of `Algorithm`
is behind the disabled cargo feature `pcg` and is therefore not part of the
compiled enum; the default build has the single variant `Lcg`.
-/

/-- 2^64, the modulus of all u64 wraparound arithmetic. -/
def U64MOD : Nat := 2 ^ 64

/-- Rust `u64::wrapping_mul`. -/
def wrapping_mul64 (a b : Nat) : Nat := (a * b) % U64MOD

/-- Rust `u64::wrapping_add`. -/
def wrapping_add64 (a b : Nat) : Nat := (a + b) % U64MOD

/-- `fn lcg(seed: u64) -> u64 { seed.wrapping_mul(6364136223846793005).wrapping_add(1) }` -/
def lcg (seed : Nat) : Nat :=
  wrapping_add64 (wrapping_mul64 seed 6364136223846793005) 1

/-- `enum Algorithm`: the default build compiles only the `Lcg` variant
(`Pcg` is behind the disabled `pcg` feature). -/
inductive Algorithm : Type where
  | lcg : Algorithm
deriving DecidableEq

/-- `struct RNG { seed: u64, algorithm: Algorithm }` -/
structure RNG : Type where
  seed : Nat
  algorithm : Algorithm
deriving DecidableEq

/-- The transition function selected by the algorithm tag: the body of the
`match self.algorithm` inside `RNG::next`. -/
def transition : Algorithm → Nat → Nat
  | Algorithm.lcg, s => lcg s

/-- `RNG::new(seed)`: state = seed, algorithm = Lcg. -/
def RNG.new (seed : Nat) : RNG := ⟨seed, Algorithm.lcg⟩

/-- `RNG::set_algorithm`. -/
def RNG.set_algorithm (r : RNG) (a : Algorithm) : RNG := ⟨r.seed, a⟩

/-- `RNG::next`: stores `transition(algorithm, seed)` into `seed` and returns
the new `seed`.  Modelled as (returned value, updated generator). -/
def RNG.next (r : RNG) : Nat × RNG :=
  (transition r.algorithm r.seed, ⟨transition r.algorithm r.seed, r.algorithm⟩)

/-- `RNG::gen_range(min, max)`.  The Rust code panics when `max <= min`
(modelled as `none`).  It then computes `max - min + 1` in u64 arithmetic:
when `min = 0` and `max = u64::MAX` this wraps to `0` (an overflow panic in a
debug build), and the subsequent `% 0` panics in a release build, so that
case is `none` as well. -/
def RNG.gen_range (r : RNG) (min max : Nat) : Option (Nat × RNG) :=
  if max ≤ min then none
  else if (max - min + 1) % U64MOD = 0 then none
  else some ((r.next).1 % ((max - min + 1) % U64MOD) + min, (r.next).2)

/-- Bit length of a natural number, by structural recursion on a fuel
argument (66 is enough for every value handled here, all below 2^66). -/
def bitLenAux : Nat → Nat → Nat
  | 0, _ => 0
  | fuel + 1, n => if n = 0 then 0 else bitLenAux fuel (n / 2) + 1

/-- Bit length of a natural number below 2^66. -/
def bitLen (n : Nat) : Nat := bitLenAux 66 n

/-- The distance between consecutive IEEE-754 binary64 values at magnitude
`n` (f64 has a 53-bit significand, so integers below 2^53 are exact). -/
def f64ulp (n : Nat) : Nat :=
  if n < 2 ^ 53 then 1 else 2 ^ (bitLen n - 53)

/-- Rust's `as f64` cast of a nonnegative integer: round to the nearest
binary64 value, ties to even significand. -/
def roundF64 (n : Nat) : Nat :=
  let g := f64ulp n
  let q := n / g
  let rem := n % g
  if 2 * rem < g then q * g
  else if g < 2 * rem then (q + 1) * g
  else if q % 2 = 0 then q * g else (q + 1) * g

/-- The divisor `u64::MAX as f64 + 1.0` of `gen_float`, evaluated in f64
arithmetic: the cast rounds `2^64 - 1` up to `2^64`, and adding `1.0` rounds
`2^64 + 1` back down to `2^64`. -/
def f64Divisor : Nat := roundF64 (roundF64 (2 ^ 64 - 1) + 1)

/-- `RNG::gen_float`: `(self.next() as f64) / (u64::MAX as f64 + 1.0)`.
The divisor is exactly `2^64`, a power of two, and the rounded numerator is
at most `2^64`, so the f64 division is exact (the quotient is `0` or a
normal number whose significand is that of the numerator); the returned
float is therefore exactly the rational `roundF64 value / 2^64`. -/
def RNG.gen_float (r : RNG) : ℚ × RNG :=
  ((roundF64 (r.next).1 : ℚ) / (f64Divisor : ℚ), (r.next).2)

/-- `RNG::gen_bool`: `self.next() & 1 == 1`. -/
def RNG.gen_bool (r : RNG) : Bool × RNG :=
  (((r.next).1 &&& 1) == 1, (r.next).2)

/-- `RNG::gen_unsigned(size)`: the Rust `match` casts the raw u64 through
`u8`/`u16`/`u32`/`u64` and then to `usize` (64-bit, zero-extension); the
narrowing casts keep the low `size` bits, i.e. reduce modulo `2^size`.  Any
other size panics (`none`) without advancing the state. -/
def RNG.gen_unsigned (r : RNG) (size : Nat) : Option (Nat × RNG) :=
  if size = 8 then some ((r.next).1 % 2 ^ 8, (r.next).2)
  else if size = 16 then some ((r.next).1 % 2 ^ 16, (r.next).2)
  else if size = 32 then some ((r.next).1 % 2 ^ 32, (r.next).2)
  else if size = 64 then some ((r.next).1, (r.next).2)
  else none

/-- Reinterpret the low `w` bits of `v` as a two's-complement signed value
(the effect of Rust's `as i8`/`as i16`/`as i32`/`as i64` on a u64). -/
def toSigned (v w : Nat) : Int :=
  if v % 2 ^ w < 2 ^ (w - 1) then ((v % 2 ^ w : Nat) : Int)
  else ((v % 2 ^ w : Nat) : Int) - 2 ^ w

/-- `RNG::gen_signed(size)`: the Rust `match` casts the raw u64 through
`i8`/`i16`/`i32`/`i64` (two's-complement reinterpretation of the low bits)
and then sign-extends to `isize`.  Any other size panics (`none`). -/
def RNG.gen_signed (r : RNG) (size : Nat) : Option (Int × RNG) :=
  if size = 8 then some (toSigned (r.next).1 8, (r.next).2)
  else if size = 16 then some (toSigned (r.next).1 16, (r.next).2)
  else if size = 32 then some (toSigned (r.next).1 32, (r.next).2)
  else if size = 64 then some (toSigned (r.next).1 64, (r.next).2)
  else none

/-- `RNG::pick_random(slice)`: `None` for an empty slice, otherwise
`gen_range(0, len - 1)` and `slice.get(idx)`.  The outer `none` models a
panic inside `gen_range`; `some (opt, r)` models a normal return of `opt`
with final generator `r`. -/
def RNG.pick_random {α : Type} (r : RNG) (l : List α) : Option (Option α × RNG) :=
  if l.isEmpty then some (none, r)
  else
    match r.gen_range 0 (l.length - 1) with
    | none => none
    | some (idx, r2) => some (l[idx]?, r2)

/-- The list of the first `n` raw outputs of `RNG::next`, in order. -/
def RNG.outputs (r : RNG) : Nat → List Nat
  | 0 => []
  | n + 1 => (r.next).1 :: (r.next).2.outputs n

/-! ## Helper lemmas -/

/-- The raw output of `next` is always a valid u64 (the transition ends in a
reduction modulo 2^64). -/
lemma next_lt (r : RNG) : (r.next).1 < 2 ^ 64 := by
  cases r with
  | mk s a =>
    cases a
    exact Nat.mod_lt _ (by norm_num [U64MOD])

/-- Whenever `gen_range` returns normally, the final generator is the one
produced by the single internal `next` call. -/
lemma gen_range_state (r : RNG) (lo hi v : Nat) (r2 : RNG)
    (h : r.gen_range lo hi = some (v, r2)) : r2 = (r.next).2 := by
  unfold RNG.gen_range at h
  split_ifs at h
  all_goals simp_all

/-- The parity of `lcg s` is always opposite to the parity of `s`. -/
lemma lcg_mod_two (s : Nat) : lcg s % 2 = (s + 1) % 2 := by
  show ((s * 6364136223846793005 % U64MOD + 1) % U64MOD) % 2 = (s + 1) % 2
  have hd : (2 : Nat) ∣ U64MOD := ⟨2 ^ 63, by norm_num [U64MOD]⟩
  rw [Nat.mod_mod_of_dvd _ hd, Nat.add_mod, Nat.mod_mod_of_dvd _ hd,
    Nat.mul_mod]
  norm_num

/-! ## Claim theorems -/

/-- C4: the LCG transition is bit-exact: for every u64 state `s`, the next
state is `s * 6364136223846793005 + 1` reduced modulo `2^64`, computed with
unsigned wraparound (total, no overflow error), and it is again a u64. -/
theorem lcg_bit_exact (s : Nat) :
    lcg s = (s * 6364136223846793005 + 1) % 2 ^ 64 ∧
    transition Algorithm.lcg s = lcg s ∧
    lcg s < 2 ^ 64 := by
  refine ⟨?_, rfl, Nat.mod_lt _ (by norm_num [U64MOD])⟩
  show (s * 6364136223846793005 % U64MOD + 1) % U64MOD = _
  conv_rhs => rw [Nat.add_mod]
  norm_num [U64MOD]

/-- C10: `advance` always changes the state: the LCG transition has no fixed
point (`lcg s ≠ s` for every `s`, because the increment `1` flips parity),
and hence the state stored by `next` always differs from the previous one. -/
theorem advance_always_changes_state :
    (∀ s : Nat, lcg s ≠ s) ∧ (∀ r : RNG, ((r.next).2).seed ≠ r.seed) := by
  have key : ∀ s : Nat, lcg s ≠ s := by
    intro s h
    have h2 := lcg_mod_two s
    rw [h] at h2
    omega
  refine ⟨key, fun r => ?_⟩
  cases r with
  | mk s a => cases a; exact key s

/-- C10 witness: concrete instance at state 123. -/
theorem advance_always_changes_state_witness :
    lcg 123 ≠ 123 ∧ (((RNG.new 123).next).2).seed ≠ (RNG.new 123).seed :=
  ⟨advance_always_changes_state.1 123,
   advance_always_changes_state.2 (RNG.new 123)⟩

/-- C9: determinism: two generators with the same seed and the same
algorithm produce identical sequences of raw `next` outputs, for any number
of steps. -/
theorem deterministic_outputs (r1 r2 : RNG) (hs : r1.seed = r2.seed)
    (ha : r1.algorithm = r2.algorithm) (n : Nat) :
    r1.outputs n = r2.outputs n := by
  obtain ⟨s1, a1⟩ := r1
  obtain ⟨s2, a2⟩ := r2
  dsimp at hs ha
  subst hs
  subst ha
  rfl

/-- C9 witness: two independently constructed generators with seed 123 and
the LCG algorithm agree on their first ten raw outputs. -/
theorem deterministic_outputs_witness :
    (RNG.new 123).outputs 10 =
      ((RNG.new 123).set_algorithm Algorithm.lcg).outputs 10 :=
  deterministic_outputs (RNG.new 123)
    ((RNG.new 123).set_algorithm Algorithm.lcg) rfl rfl 10

/-- C1 counterexample: `gen_range(0, u64::MAX)` satisfies `max > min`, yet
the span `max - min + 1` wraps to `0` in u64 arithmetic and the call panics
(`none`) instead of returning a value in range. -/
theorem gen_range_full_span_panics :
    (RNG.new 0).gen_range 0 (2 ^ 64 - 1) = none := by decide

/-- C1 (amended): for every `(min, max)` with `min < max < 2^64`, except the
single pair `(0, 2^64 - 1)` whose span overflows, `gen_range` returns
`(next() % span) + min` with `span = max - min + 1`, and the result lies in
`[min, max]` inclusive. -/
theorem gen_range_in_bounds (r : RNG) (min max : Nat) (h1 : min < max)
    (h2 : max < 2 ^ 64) (h3 : ¬(min = 0 ∧ max = 2 ^ 64 - 1)) :
    r.gen_range min max =
      some ((r.next).1 % (max - min + 1) + min, (r.next).2) ∧
    min ≤ (r.next).1 % (max - min + 1) + min ∧
    (r.next).1 % (max - min + 1) + min ≤ max := by
  have hspan : max - min + 1 < U64MOD := by
    unfold U64MOD
    norm_num at h2 h3 ⊢
    omega
  have hmod : (max - min + 1) % U64MOD = max - min + 1 :=
    Nat.mod_eq_of_lt hspan
  have hlt : (r.next).1 % (max - min + 1) < max - min + 1 :=
    Nat.mod_lt _ (by omega)
  refine ⟨?_, by omega, by omega⟩
  unfold RNG.gen_range
  rw [if_neg (by omega), hmod, if_neg (by omega)]

/-- C1 witness: `gen_range(10, 20)` from seed 42 returns the claimed value
and it lies in `[10, 20]`. -/
theorem gen_range_in_bounds_witness :
    (RNG.new 42).gen_range 10 20 =
      some (((RNG.new 42).next).1 % (20 - 10 + 1) + 10, ((RNG.new 42).next).2) ∧
    10 ≤ ((RNG.new 42).next).1 % (20 - 10 + 1) + 10 ∧
    ((RNG.new 42).next).1 % (20 - 10 + 1) + 10 ≤ 20 :=
  gen_range_in_bounds (RNG.new 42) 10 20 (by decide) (by decide) (by decide)

/-- C2: the claim says `pick_random` returns `Some` on every non-empty
slice, but on a one-element slice the code calls `gen_range(0, 0)`, whose
argument check `max <= min` panics; the call never returns. -/
theorem pick_random_singleton_panics :
    (RNG.new 0).pick_random [(42 : Nat)] = none := by decide

/-- C3: the claim (and the function's own documentation) says `gen_float`
is always strictly below `1.0`, but from the u64 state `9137839865990459062`
the raw output is `2^64 - 1`, whose f64 rounding is exactly `2^64`, so the
division by the exact divisor `2^64` returns exactly `1.0`. -/
theorem gen_float_hits_one :
    ((RNG.new 9137839865990459062).next).1 = 2 ^ 64 - 1 ∧
    f64Divisor = 2 ^ 64 ∧
    ((RNG.new 9137839865990459062).gen_float).1 = 1 := by
  have h1 : roundF64 (((RNG.new 9137839865990459062).next).1) = 2 ^ 64 := by
    decide
  have h2 : f64Divisor = 2 ^ 64 := by decide
  refine ⟨by decide, h2, ?_⟩
  unfold RNG.gen_float
  rw [h1, h2]
  norm_num

/-- C5: `next` is the sole mutator of engine state: it stores
`transition(algorithm, state)` and returns exactly that new state;
`set_algorithm` leaves the state untouched, and every derivation either
leaves the generator unchanged or ends in the generator produced by a
single `next`. -/
theorem next_sole_mutator (r : RNG) (a : Algorithm) (lo hi size : Nat)
    (l : List Nat) :
    r.next = (transition r.algorithm r.seed,
      ⟨transition r.algorithm r.seed, r.algorithm⟩) ∧
    (r.next).1 = ((r.next).2).seed ∧
    (r.set_algorithm a).seed = r.seed ∧
    (r.gen_float).2 = (r.next).2 ∧
    (r.gen_bool).2 = (r.next).2 ∧
    (∀ v r2, r.gen_range lo hi = some (v, r2) → r2 = (r.next).2) ∧
    (∀ v r2, r.gen_unsigned size = some (v, r2) → r2 = (r.next).2) ∧
    (∀ i r2, r.gen_signed size = some (i, r2) → r2 = (r.next).2) ∧
    (∀ x r2, r.pick_random l = some (x, r2) → r2 = r ∨ r2 = (r.next).2) := by
  refine ⟨rfl, rfl, rfl, rfl, rfl, ?_, ?_, ?_, ?_⟩
  · intro v r2 h
    exact gen_range_state r lo hi v r2 h
  · intro v r2 h
    unfold RNG.gen_unsigned at h
    split_ifs at h
    all_goals simp_all
  · intro i r2 h
    unfold RNG.gen_signed at h
    split_ifs at h
    all_goals simp_all
  · intro x r2 h
    unfold RNG.pick_random at h
    split_ifs at h with he
    · left
      simp only [Option.some.injEq, Prod.mk.injEq] at h
      exact h.2.symm
    · cases hg : r.gen_range 0 (l.length - 1) with
      | none => rw [hg] at h; exact absurd h (by simp)
      | some p =>
        obtain ⟨idx, r3⟩ := p
        rw [hg] at h
        simp only [Option.some.injEq, Prod.mk.injEq] at h
        right
        rw [← h.2]
        exact gen_range_state r 0 (l.length - 1) idx r3 hg

/-- C5 witness: concrete instance at seed 7 (the implication conjuncts
applied to the concrete successful `gen_range(1, 6)` call). -/
theorem next_sole_mutator_witness :
    ((RNG.new 7).set_algorithm Algorithm.lcg).seed = (RNG.new 7).seed ∧
    ((RNG.new 7).gen_float).2 = ((RNG.new 7).next).2 ∧
    (⟨lcg 7, Algorithm.lcg⟩ : RNG) = ((RNG.new 7).next).2 :=
  ⟨(next_sole_mutator (RNG.new 7) Algorithm.lcg 1 6 8 []).2.2.1,
   (next_sole_mutator (RNG.new 7) Algorithm.lcg 1 6 8 []).2.2.2.1,
   (next_sole_mutator (RNG.new 7) Algorithm.lcg 1 6 8 []).2.2.2.2.2.1
     (lcg 7 % 6 + 1) ⟨lcg 7, Algorithm.lcg⟩ (by decide)⟩

/-- C6 counterexample: `pick_random` on the empty slice returns normally
(`None`) without advancing the state: from state 5 the generator still holds
seed 5, while a state advance would have stored `transition(Lcg, 5) ≠ 5`. -/
theorem pick_random_empty_skips_advance :
    (RNG.new 5).pick_random ([] : List Nat) = some (none, RNG.new 5) ∧
    transition (RNG.new 5).algorithm (RNG.new 5).seed ≠ (RNG.new 5).seed := by
  exact ⟨rfl, by decide⟩

/-- C6 (amended): every derivation that returns normally advances the state
exactly once — with the single exception of `pick_random` on an empty
slice, which returns `None` leaving the generator untouched. -/
theorem derived_ops_advance_once (r : RNG) (lo hi size : Nat) {α : Type}
    (l : List α) :
    (∀ v r2, r.gen_range lo hi = some (v, r2) →
      r2.seed = transition r.algorithm r.seed) ∧
    ((r.gen_float).2).seed = transition r.algorithm r.seed ∧
    ((r.gen_bool).2).seed = transition r.algorithm r.seed ∧
    (∀ v r2, r.gen_unsigned size = some (v, r2) →
      r2.seed = transition r.algorithm r.seed) ∧
    (∀ i r2, r.gen_signed size = some (i, r2) →
      r2.seed = transition r.algorithm r.seed) ∧
    (l ≠ [] → ∀ x r2, r.pick_random l = some (x, r2) →
      r2.seed = transition r.algorithm r.seed) ∧
    r.pick_random ([] : List α) = some (none, r) := by
  refine ⟨?_, rfl, rfl, ?_, ?_, ?_, rfl⟩
  · intro v r2 h
    rw [gen_range_state r lo hi v r2 h]
    rfl
  · intro v r2 h
    unfold RNG.gen_unsigned at h
    split_ifs at h
    all_goals simp only [Option.some.injEq, Prod.mk.injEq] at h
    all_goals rw [← h.2]
    all_goals rfl
  · intro i r2 h
    unfold RNG.gen_signed at h
    split_ifs at h
    all_goals simp only [Option.some.injEq, Prod.mk.injEq] at h
    all_goals rw [← h.2]
    all_goals rfl
  · intro hne x r2 h
    unfold RNG.pick_random at h
    rw [if_neg (by simpa using hne)] at h
    cases hg : r.gen_range 0 (l.length - 1) with
    | none => rw [hg] at h; exact absurd h (by simp)
    | some p =>
      obtain ⟨idx, r3⟩ := p
      rw [hg] at h
      simp only [Option.some.injEq, Prod.mk.injEq] at h
      rw [← h.2, gen_range_state r 0 (l.length - 1) idx r3 hg]
      rfl

/-- C6 witness: concrete instances at seed 7: `gen_float` advances the
state once, and `pick_random` on the empty list returns `None` leaving the
generator unchanged. -/
theorem derived_ops_advance_once_witness :
    ((RNG.new 7).gen_float).2.seed
        = transition (RNG.new 7).algorithm (RNG.new 7).seed ∧
    (RNG.new 7).pick_random ([] : List Nat) = some (none, RNG.new 7) :=
  ⟨(derived_ops_advance_once (RNG.new 7) 0 1 8 ([] : List Nat)).2.1,
   (derived_ops_advance_once (RNG.new 7) 0 1 8 ([] : List Nat)).2.2.2.2.2.2⟩

/-- Two's-complement reinterpretation of `w` low bits stays within the
signed range `[-2^(w-1), 2^(w-1))`. -/
lemma toSigned_bounds (v w : Nat) (hw : 0 < w) :
    -(2 ^ (w - 1) : Int) ≤ toSigned v w ∧ toSigned v w < 2 ^ (w - 1) := by
  have hsplit : (2 : Nat) ^ w = 2 * 2 ^ (w - 1) := by
    conv_lhs => rw [show w = w - 1 + 1 by omega]
    rw [pow_succ]
    ring
  have hm : v % 2 ^ w < 2 ^ w := Nat.mod_lt _ (by positivity)
  unfold toSigned
  split_ifs with h
  · constructor
    · have h1 : (0 : Int) < 2 ^ (w - 1) := by positivity
      have h0 : (0 : Int) ≤ ((v % 2 ^ w : Nat) : Int) := Int.natCast_nonneg _
      linarith
    · exact_mod_cast h
  · push_neg at h
    have hm2 : ((v % 2 ^ w : Nat) : Int) < (2 : Int) ^ w := by exact_mod_cast hm
    have hh : ((2 : Int) ^ (w - 1)) ≤ ((v % 2 ^ w : Nat) : Int) := by
      exact_mod_cast h
    have hs : ((2 : Int)) ^ w = 2 * 2 ^ (w - 1) := by exact_mod_cast hsplit
    exact ⟨by linarith, by linarith⟩

/-- C7: for every supported width, `gen_unsigned` returns the low `size`
bits of the raw output zero-extended (hence below `2^size`), and
`gen_signed` reinterprets those bits as two's-complement and sign-extends
(hence within `[-2^(size-1), 2^(size-1))`). -/
theorem gen_fixed_width_spec (r : RNG) (size : Nat)
    (h : size = 8 ∨ size = 16 ∨ size = 32 ∨ size = 64) :
    r.gen_unsigned size = some ((r.next).1 % 2 ^ size, (r.next).2) ∧
    (r.next).1 % 2 ^ size < 2 ^ size ∧
    r.gen_signed size = some (toSigned (r.next).1 size, (r.next).2) ∧
    -(2 ^ (size - 1) : Int) ≤ toSigned (r.next).1 size ∧
    toSigned (r.next).1 size < 2 ^ (size - 1) := by
  have hw : 0 < size := by rcases h with h | h | h | h <;> omega
  have hb := toSigned_bounds (r.next).1 size hw
  refine ⟨?_, Nat.mod_lt _ (by positivity), ?_, hb.1, hb.2⟩
  · rcases h with h | h | h | h <;> subst h
    · rfl
    · rfl
    · rfl
    · rw [Nat.mod_eq_of_lt (next_lt r)]
      rfl
  · rcases h with h | h | h | h <;> subst h
    · rfl
    · rfl
    · rfl
    · rfl

/-- C7 witness: concrete instance at seed 3 with width 8: the value is the
low byte of the raw output and the signed value is within `[-128, 127]`. -/
theorem gen_fixed_width_spec_witness :
    (RNG.new 3).gen_unsigned 8
        = some (((RNG.new 3).next).1 % 2 ^ 8, ((RNG.new 3).next).2) ∧
    ((RNG.new 3).next).1 % 2 ^ 8 < 2 ^ 8 ∧
    (RNG.new 3).gen_signed 8
        = some (toSigned ((RNG.new 3).next).1 8, ((RNG.new 3).next).2) ∧
    -(2 ^ (8 - 1) : Int) ≤ toSigned ((RNG.new 3).next).1 8 ∧
    toSigned ((RNG.new 3).next).1 8 < 2 ^ (8 - 1) :=
  gen_fixed_width_spec (RNG.new 3) 8 (Or.inl rfl)

/-- C8: `gen_range` fails (panics, modelled `none`) for every pair with
`max ≤ min`, and `gen_unsigned`/`gen_signed` fail for every width outside
`{8, 16, 32, 64}`; no call clamps or defaults. -/
theorem invalid_args_fail (r : RNG) (min max size : Nat) :
    (max ≤ min → r.gen_range min max = none) ∧
    (size ≠ 8 → size ≠ 16 → size ≠ 32 → size ≠ 64 →
      r.gen_unsigned size = none ∧ r.gen_signed size = none) := by
  refine ⟨fun h => ?_, fun h8 h16 h32 h64 => ?_⟩
  · unfold RNG.gen_range
    rw [if_pos h]
  · constructor <;>
      simp [RNG.gen_unsigned, RNG.gen_signed, h8, h16, h32, h64]

/-- C8 witness: `gen_range(5,5)`, `gen_range(10,1)`, `gen_unsigned(24)` and
`gen_signed(24)` all fail. -/
theorem invalid_args_fail_witness :
    (RNG.new 0).gen_range 5 5 = none ∧
    (RNG.new 0).gen_range 10 1 = none ∧
    (RNG.new 0).gen_unsigned 24 = none ∧
    (RNG.new 0).gen_signed 24 = none :=
  ⟨(invalid_args_fail (RNG.new 0) 5 5 24).1 (by decide),
   (invalid_args_fail (RNG.new 0) 10 1 24).1 (by decide),
   ((invalid_args_fail (RNG.new 0) 5 5 24).2 (by decide) (by decide)
     (by decide) (by decide)).1,
   ((invalid_args_fail (RNG.new 0) 5 5 24).2 (by decide) (by decide)
     (by decide) (by decide)).2⟩
